import Mathlib

/-!
Shallow embedding of the crRoma-api request-admission pipeline:
`src/utils/crypto.js`, `src/models/apiKeys.js`, `src/models/otps.js`,
`src/routes/proxy.js` and `src/config.js`, together with the per-day
usage counter, which is modelled from the spec because its module is not
among the sources.

Conventions:
* JavaScript strings are Lean `String`s (all values involved are ASCII,
  so UTF-16 length and character count agree).
* Timestamps are integers, milliseconds since the Unix epoch.  The
  source compares ISO-8601 strings via `new Date(s).getTime()`; that map
  is an order-preserving bijection onto these integers, so comparisons
  translate directly.
* The scrypt key-derivation function is an arbitrary parameter
  `H : String → String → String` taking plaintext and salt to a
  base64url digest; every theorem holds for every such function.
* Randomness (`crypto.randomBytes`, `crypto.randomInt`) enters as
  explicit byte-list or value arguments.
-/

namespace CrRoma

/-! ### Byte-string codecs (src/utils/crypto.js helpers) -/

/-- One lowercase hexadecimal digit, as in `Buffer.toString('hex')`. -/
def hexDigit (n : Nat) : Char :=
  if n < 10 then Char.ofNat (48 + n) else Char.ofNat (87 + n)

/-- Hex encoding of a byte list, as in `Buffer.toString('hex')`. -/
def hexChars : List Nat → List Char
  | [] => []
  | b :: bs => hexDigit (b / 16) :: hexDigit (b % 16) :: hexChars bs

/-- Base64url alphabet: base64 with 62 ↦ '-' and 63 ↦ '_'; padding is
stripped by the source, so positions 0–61 are the usual ones. -/
def b64Char (n : Nat) : Char :=
  if n < 26 then Char.ofNat (65 + n)
  else if n < 52 then Char.ofNat (97 + (n - 26))
  else if n < 62 then Char.ofNat (48 + (n - 52))
  else if n = 62 then '-'
  else '_'

/-- Base64url encoding of a byte list, as in
`Buffer.toString('base64url')` (no padding). -/
def b64encode : List Nat → List Char
  | b1 :: b2 :: b3 :: rest =>
      b64Char (b1 / 4) :: b64Char (b1 % 4 * 16 + b2 / 16) ::
      b64Char (b2 % 16 * 4 + b3 / 64) :: b64Char (b3 % 64) :: b64encode rest
  | [b1, b2] => [b64Char (b1 / 4), b64Char (b1 % 4 * 16 + b2 / 16), b64Char (b2 % 16 * 4)]
  | [b1] => [b64Char (b1 / 4), b64Char (b1 % 4 * 16)]
  | [] => []

/-- Value of a base64 character.  Characters outside the alphabet
(including '=' padding) are skipped by the decoder, matching Node's
lenient base64 parsing. -/
def b64val (c : Char) : Option Nat :=
  if 65 ≤ c.toNat ∧ c.toNat ≤ 90 then some (c.toNat - 65)
  else if 97 ≤ c.toNat ∧ c.toNat ≤ 122 then some (c.toNat - 97 + 26)
  else if 48 ≤ c.toNat ∧ c.toNat ≤ 57 then some (c.toNat - 48 + 52)
  else if c = '+' then some 62
  else if c = '/' then some 63
  else none

/-- Reassemble bytes from a list of base64 sextet values; a dangling
final sextet yields no byte. -/
def b64sextets : List Nat → List Nat
  | a :: b :: c :: d :: rest =>
      (a * 4 + b / 16) :: (b % 16 * 16 + c / 4) :: (c % 4 * 64 + d) :: b64sextets rest
  | [a, b, c] => [a * 4 + b / 16, b % 16 * 16 + c / 4]
  | [a, b] => [a * 4 + b / 16]
  | _ => []

/-- base64urlToBuffer from src/utils/crypto.js: trim, map the url
alphabet back to plain base64, pad to a multiple of four and decode. -/
def base64urlToBuffer (s : String) : List Nat :=
  let str := ((s.data.dropWhile Char.isWhitespace).reverse.dropWhile Char.isWhitespace).reverse
  if str.isEmpty then []
  else
    let b64 := str.map fun c => if c = '-' then '+' else if c = '_' then '/' else c
    let pad := b64.length % 4
    let padded := if pad = 0 then b64 else b64 ++ List.replicate (4 - pad) '='
    b64sextets (padded.filterMap b64val)

/-- verifyHash from src/utils/crypto.js: recompute the digest of the
plaintext under the stored salt, decode both digests and compare with a
length check followed by `crypto.timingSafeEqual`, which observationally
is byte-list equality. -/
def verifyHash (H : String → String → String) (plain salt expected : String) : Bool :=
  let a := base64urlToBuffer (H plain salt)
  let b := base64urlToBuffer expected
  a.length == b.length && a == b

/-- Result record of generateApiKey; the source's `prefix` field is
called `pfx` here. -/
structure GeneratedKey where
  key : String
  pfx : String
  salt : String
  hash : String
deriving Repr, DecidableEq

/-- generateApiKey from src/utils/crypto.js: 4 random bytes hex-encoded
as the public prefix, 24 random bytes base64url-encoded as the secret,
key = `prefix.secret`, salted scrypt hash of the whole key.  The random
bytes and the salt are explicit arguments. -/
def generateApiKey (H : String → String → String)
    (prefixBytes secretBytes : List Nat) (salt : String) : GeneratedKey :=
  let pfx := String.mk (hexChars prefixBytes)
  let secret := String.mk (b64encode secretBytes)
  let key := pfx ++ "." ++ secret
  { key := key, pfx := pfx, salt := salt, hash := H key salt }

/-! ### API-key table (src/models/apiKeys.js) -/

/-- Row of the api_keys table (sql/schema.sql); `key_pfx` is the
source's `key_prefix` column. -/
structure ApiKeyRow where
  id : Nat
  user_id : Nat
  key_pfx : String
  key_hash : String
  salt : String
  label : Option String
  revoked_at : Option Int
  last_used_at : Option Int
deriving Repr, DecidableEq

/-- Outcome of validateFullKey. -/
inductive KeyValidation where
  | ok (keyId userId : Nat) (pfx : String)
  | fail (reason : String)
deriving Repr, DecidableEq

/-- Row selected by `ORDER BY id DESC LIMIT 1`: the one with the
largest value of f (ids are unique in every table). -/
def latestBy (f : α → Nat) : List α → Option α
  | [] => none
  | x :: xs =>
    match latestBy f xs with
    | none => some x
    | some m => if f x < f m then some m else some x

/-- findActiveByPrefix from src/models/apiKeys.js (named with `Pfx`
here): latest non-revoked row carrying the given key prefix. -/
def findActiveByPfx (db : List ApiKeyRow) (p : String) : Option ApiKeyRow :=
  latestBy ApiKeyRow.id (db.filter fun r => r.key_pfx == p && r.revoked_at.isNone)

/-- JavaScript `String.prototype.indexOf` for a single character: index
of the first occurrence, or -1. -/
def jsIndexOf (c : Char) : List Char → Int
  | [] => -1
  | x :: xs =>
    if x = c then 0
    else
      let r := jsIndexOf c xs
      if r < 0 then -1 else r + 1

/-- validateFullKey from src/models/apiKeys.js: format gate (length at
least 12, a dot at a positive index), lookup of the active row by
prefix, then hash verification. -/
def validateFullKey (H : String → String → String) (db : List ApiKeyRow)
    (fullKey : String) : KeyValidation :=
  if fullKey.data.length < 12 then .fail "format"
  else
    let dotIdx := jsIndexOf '.' fullKey.data
    if dotIdx ≤ 0 then .fail "format"
    else
      let pfx := String.mk (fullKey.data.take dotIdx.toNat)
      match findActiveByPfx db pfx with
      | none => .fail "not_found"
      | some row =>
        if verifyHash H fullKey row.salt row.key_hash then .ok row.id row.user_id row.key_pfx
        else .fail "mismatch"

/-- Outcome of createKey as reported to its caller. -/
inductive CreateResult where
  | ok (id : Nat) (key : String) (pfx : String)
  | failed
deriving Repr, DecidableEq

/-- Id SQLite assigns to the next inserted row: larger than every
existing id. -/
def nextId (db : List ApiKeyRow) : Nat :=
  db.foldr (fun r acc => max r.id acc) 0 + 1

/-- Does a row with this (user_id, key_prefix) pair exist?  The schema
declares UNIQUE(user_id, key_prefix), so inserting such a pair throws. -/
def hasUserPfx (db : List ApiKeyRow) (uid : Nat) (p : String) : Bool :=
  db.any fun r => r.user_id == uid && r.key_pfx == p

/-- Row inserted by createKey's INSERT statement. -/
def insertKeyRow (db : List ApiKeyRow) (uid : Nat) (g : GeneratedKey)
    (label : Option String) : List ApiKeyRow :=
  db ++ [{ id := nextId db, user_id := uid, key_pfx := g.pfx, key_hash := g.hash,
           salt := g.salt, label := label, revoked_at := none, last_used_at := none }]

/-- Case-insensitive containment of a character sequence. -/
def containsSeq (needle : List Char) : List Char → Bool
  | [] => needle.isEmpty
  | c :: t => needle.isPrefixOf (c :: t) || containsSeq needle t

/-- The `/UNIQUE/i.test(message)` classification createKey applies to a
thrown insert error. -/
def msgHasUnique (msg : String) : Bool :=
  containsSeq "unique".data (msg.data.map Char.toLower)

/-- Error raised by the INSERT of one createKey attempt: the uniqueness
violation the database itself raises on a (user, prefix) collision, or
an injected storage error modelling any other throw from `run`; `none`
is success. -/
def insertError (db : List ApiKeyRow) (uid : Nat) (p : String)
    (inj : Option String) : Option String :=
  if hasUserPfx db uid p
  then some "UNIQUE constraint failed: api_keys.user_id, api_keys.key_prefix"
  else inj

/-- Attempt loop of createKey.  `fuel` counts the remaining iterations
of `while (attempt < 3)`; `attempt` indexes the key generator and the
error oracle.  A successful insert breaks with the new row's id, the
full key and the prefix; a UNIQUE-classified error retries with the
table unchanged (the failed insert was rolled back); any other error is
rethrown out of the transaction. -/
def createKeyGo (uid : Nat) (label : Option String) (gens : Nat → GeneratedKey)
    (inj : Nat → Option String) (db : List ApiKeyRow) :
    Nat → Nat → Except String (Option (Nat × String × String) × List ApiKeyRow)
  | _, 0 => .ok (none, db)
  | attempt, fuel + 1 =>
    let g := gens attempt
    match insertError db uid g.pfx (inj attempt) with
    | none => .ok (some (nextId db, g.key, g.pfx), insertKeyRow db uid g label)
    | some msg =>
      if msgHasUnique msg then createKeyGo uid label gens inj db (attempt + 1) fuel
      else .error msg

/-- createKey from src/models/apiKeys.js: up to three generation
attempts inside one transaction; if none succeeded the caller gets
`failed_to_create`, and a non-UNIQUE storage error propagates as a
thrown error (`Except.error`) with the table rolled back. -/
def createKey (uid : Nat) (label : Option String) (gens : Nat → GeneratedKey)
    (inj : Nat → Option String) (db : List ApiKeyRow) :
    Except String (CreateResult × List ApiKeyRow) :=
  match createKeyGo uid label gens inj db 0 3 with
  | .error msg => .error msg
  | .ok (none, db') => .ok (.failed, db')
  | .ok (some (i, k, p), db') => .ok (.ok i k p, db')

/-- touchKeyUsage from src/models/apiKeys.js. -/
def touchKeyUsage (db : List ApiKeyRow) (keyId : Nat) (now : Int) : List ApiKeyRow :=
  db.map fun r => if r.id == keyId then { r with last_used_at := some now } else r

/-! ### Daily usage counter (src/models/usage.js, whose source appears
in the src/src/index.js staging file after its document separator) -/

/-- Row of the usage_daily table.  The source keys rows by the
`date_utc` string produced by toUtcDateStr (db.js): the "YYYY-MM-DD"
UTC calendar date of the current time.  Every JavaScript UTC day spans
exactly 86400000 ms, so the day number (milliseconds since epoch
divided by 86400000) is in order-preserving bijection with those
strings and serves as the key here. -/
structure UsageRow where
  user_id : Nat
  day : Nat
  count : Nat
deriving Repr, DecidableEq

/-- getCountForDate from src/models/usage.js: the count of the
(user, date) row, or 0 when no row exists. -/
def getCountForDate (usage : List UsageRow) (uid day : Nat) : Nat :=
  match usage.find? (fun r => r.user_id == uid && r.day == day) with
  | some r => r.count
  | none => 0

/-- incrementForDate from src/models/usage.js: a transactional upsert —
when no row exists, insert one with count 1 and return 1; otherwise
update the row to count + 1 and return the previous count + 1.  The
returned pair is (returned count, updated table). -/
def incrementForDate (usage : List UsageRow) (uid day : Nat) : Nat × List UsageRow :=
  match usage.find? (fun r => r.user_id == uid && r.day == day) with
  | none => (1, usage ++ [{ user_id := uid, day := day, count := 1 }])
  | some existing =>
    (existing.count + 1,
     usage.map fun r =>
       if r.user_id == uid && r.day == day then { r with count := r.count + 1 } else r)

/-- getTodayCount from src/models/usage.js: getCountForDate at today's
UTC date.  The source computes the date internally as
toUtcDateStr(now); here the guard passes the day key explicitly. -/
def getTodayCount (usage : List UsageRow) (uid day : Nat) : Nat :=
  getCountForDate usage uid day

/-- incrementToday from src/models/usage.js: incrementForDate at
today's UTC date. -/
def incrementToday (usage : List UsageRow) (uid day : Nat) : Nat × List UsageRow :=
  incrementForDate usage uid day

/-- isOverLimit from src/models/usage.js: true iff today's count is at
least the limit (`count >= Number(limit || 0)`, with limit the positive
config.defaultDailyLimit). -/
def isOverLimit (usage : List UsageRow) (uid limit day : Nat) : Bool :=
  limit ≤ getTodayCount usage uid day

/-! ### Admission guard (src/routes/proxy.js) -/

/-- Structured detail of an audit entry, one shape per logAudit call
site in proxyAuthGuard. -/
inductive AuditDetail where
  | blockDocs (path : String)
  | blockMissingKey (path : String)
  | blockInvalidKey (reason : String) (path : String)
  | blockQuota (count limit resetSeconds : Nat) (path : String)
  | proxyHit (path method : String)
deriving Repr, DecidableEq

/-- Row of the audits table. -/
structure AuditEntry where
  user_id : Option Nat
  type : String
  detail : AuditDetail
deriving Repr, DecidableEq

/-- Persistent state touched by the admission guard. -/
structure GuardState where
  apiKeys : List ApiKeyRow
  usage : List UsageRow
  audits : List AuditEntry
deriving Repr, DecidableEq

/-- The parts of an inbound request the guard inspects.  `apiKeyHeader`
is the X-API-Key header value (Express header lookup is
case-insensitive, so one optional value suffices). -/
structure ProxyRequest where
  path : String
  apiKeyHeader : Option String
  method : String
deriving Repr, DecidableEq

/-- Response the guard terminates with, or the decision to forward.
The 401 invalid-key response carries the reason field exactly as the
source's `res.json({ error: 'Invalid API key', reason: v.reason })`
does. -/
inductive GuardOutcome where
  | notFound404
  | missingKey401
  | invalidKey401 (reason : String)
  | quota429 (count limit resetSeconds : Nat)
  | forward (userId keyId : Nat) (pfx : String)
deriving Repr, DecidableEq

/-- blockedInternalDocsPaths from src/config.js. -/
def blockedInternalDocsPaths : List String := ["/openapi.json", "/docs", "/redoc"]

/-- normalizeInternalPath from src/config.js; `reqPath.startsWith('/')`
is expressed on the character list. -/
def normalizeInternalPath (p : String) : String :=
  if "/".data.isPrefixOf p.data then p else "/" ++ p

/-- secondsUntilNextUtcMidnight from src/routes/proxy.js.  The source
computes next midnight from UTC calendar components of `d`; since every
JavaScript UTC day spans exactly 86400000 ms, that equals the next
multiple of 86400000 after `nowMs`. -/
def secondsUntilNextUtcMidnight (nowMs : Nat) : Nat :=
  let next := (nowMs / 86400000 + 1) * 86400000
  max 0 ((next - nowMs) / 1000)

/-- logAudit from src/models/audits.js as used by the guard: append-only
insert into the audits table. -/
def logAudit (st : GuardState) (uid : Option Nat) (ty : String) (d : AuditDetail) : GuardState :=
  { st with audits := st.audits ++ [{ user_id := uid, type := ty, detail := d }] }

/-- proxyAuthGuard from src/routes/proxy.js: path block, credential
presence, credential validity, daily quota, then the success side
effects (usage increment, key touch, audit) before forwarding.  `limit`
is config.defaultDailyLimit and `nowMs` the current time. -/
def proxyAuthGuard (H : String → String → String) (limit : Nat) (st : GuardState)
    (req : ProxyRequest) (nowMs : Nat) : GuardOutcome × GuardState :=
  let reqPath := normalizeInternalPath req.path
  if blockedInternalDocsPaths.contains reqPath then
    (.notFound404, logAudit st none "proxy_block" (.blockDocs reqPath))
  else
    match req.apiKeyHeader with
    | none => (.missingKey401, logAudit st none "proxy_block" (.blockMissingKey reqPath))
    | some apiKey =>
      match validateFullKey H st.apiKeys apiKey with
      | .fail reason =>
        (.invalidKey401 reason, logAudit st none "proxy_block" (.blockInvalidKey reason reqPath))
      | .ok keyId userId pfx =>
        let day := nowMs / 86400000
        if isOverLimit st.usage userId limit day then
          let count := getTodayCount st.usage userId day
          let resetSeconds := secondsUntilNextUtcMidnight nowMs
          (.quota429 count limit resetSeconds,
           logAudit st (some userId) "proxy_block" (.blockQuota count limit resetSeconds reqPath))
        else
          let st' := { st with usage := (incrementToday st.usage userId day).2,
                               apiKeys := touchKeyUsage st.apiKeys keyId (nowMs : Int) }
          (.forward userId keyId pfx,
           logAudit st' (some userId) "proxy_hit" (.proxyHit reqPath req.method))

/-- Run the guard on n identical sequential requests, threading the
state. -/
def runGuardN (H : String → String → String) (limit : Nat) (req : ProxyRequest)
    (nowMs : Nat) : Nat → GuardState → List GuardOutcome × GuardState
  | 0, st => ([], st)
  | n + 1, st =>
    let p := proxyAuthGuard H limit st req nowMs
    let rest := runGuardN H limit req nowMs n p.2
    (p.1 :: rest.1, rest.2)

/-! ### OTP store (src/models/otps.js) -/

/-- Row of the otps table. -/
structure OtpRow where
  id : Nat
  email : String
  code_hash : String
  salt : String
  expires_at : Option Int
  created_at : Int
  last_sent_at : Option Int
  consumed_at : Option Int
deriving Repr, DecidableEq

/-- Outcome of canSendOtp. -/
inductive CanSend where
  | ok
  | rateMinute (waitSeconds : Int)
  | rateHour
deriving Repr, DecidableEq

/-- Latest otps row for an email, consumed or not (`ORDER BY id DESC
LIMIT 1`). -/
def latestOtpFor (otps : List OtpRow) (email : String) : Option OtpRow :=
  latestBy OtpRow.id (otps.filter fun r => r.email == email)

/-- Number of issuances for the email in the trailing hour
(`created_at >= hourAgoIso`). -/
def otpHourCount (otps : List OtpRow) (email : String) (now : Int) : Nat :=
  (otps.filter fun r => r.email == email && decide (now - 3600000 ≤ r.created_at)).length

/-- canSendOtp from src/models/otps.js: the 120-second resend cooldown
against the most recent issuance (with ceil-rounded remaining wait),
then the five-per-hour cap. -/
def canSendOtp (otps : List OtpRow) (email : String) (now : Int) : CanSend :=
  let minuteBlock : Option Int :=
    match latestOtpFor otps email with
    | some last =>
      match last.last_sent_at with
      | some lastMs =>
        let waitMs := 120 * 1000 - (now - lastMs)
        if 0 < waitMs then some ((waitMs + 999) / 1000) else none
      | none => none
    | none => none
  match minuteBlock with
  | some w => .rateMinute w
  | none => if 5 ≤ otpHourCount otps email now then .rateHour else .ok

/-- Insert into a list kept sorted by strictly descending f. -/
def insertDescBy (f : α → Nat) (x : α) : List α → List α
  | [] => [x]
  | y :: ys => if f y < f x then x :: y :: ys else y :: insertDescBy f x ys

/-- Insertion sort by descending f, the `ORDER BY id DESC` of the
candidate query. -/
def sortDescBy (f : α → Nat) : List α → List α
  | [] => []
  | x :: xs => insertDescBy f x (sortDescBy f xs)

/-- Unconsumed otps rows for an email (`consumed_at IS NULL`). -/
def unconsumedFor (otps : List OtpRow) (email : String) : List OtpRow :=
  otps.filter fun r => r.email == email && r.consumed_at.isNone

/-- Verification candidates of verifyOtp: newest ten unconsumed rows. -/
def otpCandidates (otps : List OtpRow) (email : String) : List OtpRow :=
  (sortDescBy OtpRow.id (unconsumedFor otps email)).take 10

/-- Expiry skip applied inside the candidate loop: a truthy expires_at
strictly in the past. -/
def otpExpired (r : OtpRow) (now : Int) : Bool :=
  match r.expires_at with
  | some e => decide (e < now)
  | none => false

/-- Candidate test of verifyOtp: direct string equality of the
recomputed digest with the stored one, or verifyHash. -/
def otpMatches (H : String → String → String) (code : String) (r : OtpRow) : Bool :=
  H code r.salt == r.code_hash || verifyHash H code r.salt r.code_hash

/-- Candidate loop of verifyOtp: first non-expired matching row in
newest-first order. -/
def findOtpMatch (H : String → String → String) (code : String) (now : Int) :
    List OtpRow → Option OtpRow
  | [] => none
  | r :: rs =>
    if otpExpired r now then findOtpMatch H code now rs
    else if otpMatches H code r then some r
    else findOtpMatch H code now rs

/-- Outcome of verifyOtp. -/
inductive VerifyResult where
  | ok (id : Nat)
  | fail (reason : String)
deriving Repr, DecidableEq

/-- verifyOtp from src/models/otps.js.  `cache` is
`lastOtpCache.get(email)?.code`, the process-lifetime debug cache entry
for this email; `isProd` is `isProduction()`.  Outside production an
unmatched code equal to the cached one falls back to consuming the
newest candidate.  The returned table marks the matched row consumed. -/
def verifyOtp (H : String → String → String) (isProd : Bool) (cache : Option String)
    (otps : List OtpRow) (email code : String) (now : Int) : VerifyResult × List OtpRow :=
  let records := otpCandidates otps email
  if records.isEmpty then (.fail "not_found", otps)
  else
    let matched :=
      match findOtpMatch H code now records with
      | some r => some r
      | none =>
        if !isProd then
          match cache with
          | some cachedCode => if cachedCode == code then records.head? else none
          | none => none
        else none
    match matched with
    | none => (.fail "invalid_code", otps)
    | some m =>
      (.ok m.id, otps.map fun q => if q.id == m.id then { q with consumed_at := some now } else q)

/-! ### Forwarder (src/routes/proxy.js forwardBody) -/

/-- Parsed JSON-like value, the shape of `req.body` after Express body
parsing. -/
inductive JsVal where
  | null
  | bool (b : Bool)
  | num (n : Int)
  | str (s : String)
  | arr (elems : List JsVal)
  | obj (fields : List (String × JsVal))

/-- JSON string escaping as performed by JSON.stringify. -/
def jsonEscapeChar (c : Char) : List Char :=
  if c = '"' then ['\\', '"']
  else if c = '\\' then ['\\', '\\']
  else if c = Char.ofNat 8 then ['\\', 'b']
  else if c = Char.ofNat 12 then ['\\', 'f']
  else if c = Char.ofNat 10 then ['\\', 'n']
  else if c = Char.ofNat 13 then ['\\', 'r']
  else if c = Char.ofNat 9 then ['\\', 't']
  else if c.toNat < 32 then ['\\', 'u', '0', '0', hexDigit (c.toNat / 16), hexDigit (c.toNat % 16)]
  else [c]

/-- Escape a whole string for JSON output. -/
def jsonEscape (s : String) : String := String.mk (s.data.map jsonEscapeChar).flatten

mutual

/-- JSON.stringify on parsed values. -/
def jsonStringify : JsVal → String
  | .null => "null"
  | .bool b => if b then "true" else "false"
  | .num n => toString n
  | .str s => "\"" ++ jsonEscape s ++ "\""
  | .arr xs => "[" ++ jsonArrBody xs ++ "]"
  | .obj fs => "\x7b" ++ jsonObjBody fs ++ "\x7d"

/-- Comma-separated serialization of array elements. -/
def jsonArrBody : List JsVal → String
  | [] => ""
  | [x] => jsonStringify x
  | x :: y :: xs => jsonStringify x ++ "," ++ jsonArrBody (y :: xs)

/-- Comma-separated serialization of object fields. -/
def jsonObjBody : List (String × JsVal) → String
  | [] => ""
  | [(k, v)] => "\"" ++ jsonEscape k ++ "\":" ++ jsonStringify v
  | (k, v) :: f :: fs =>
      "\"" ++ jsonEscape k ++ "\":" ++ jsonStringify v ++ "," ++ jsonObjBody (f :: fs)

end

/-- Uppercase hexadecimal digit for percent-encoding. -/
def hexDigitUpper (n : Nat) : Char :=
  if n < 10 then Char.ofNat (48 + n) else Char.ofNat (55 + n)

/-- UTF-8 bytes of one character. -/
def utf8Bytes (c : Char) : List Nat :=
  let n := c.toNat
  if n < 128 then [n]
  else if n < 2048 then [192 + n / 64, 128 + n % 64]
  else if n < 65536 then [224 + n / 4096, 128 + n / 64 % 64, 128 + n % 64]
  else [240 + n / 262144, 128 + n / 4096 % 64, 128 + n / 64 % 64, 128 + n % 64]

/-- Characters querystring.escape leaves unencoded. -/
def qsSafeChar (c : Char) : Bool :=
  c.isAlphanum || c = '-' || c = '_' || c = '.' || c = '!' || c = '~' || c = '*' ||
    c = Char.ofNat 39 || c = '(' || c = ')'

/-- Percent-encode one character for application/x-www-form-urlencoded
output. -/
def qsEscapeChar (c : Char) : List Char :=
  if qsSafeChar c then [c]
  else ((utf8Bytes c).map fun b => ['%', hexDigitUpper (b / 16), hexDigitUpper (b % 16)]).flatten

/-- querystring.escape. -/
def qsEscape (s : String) : String := String.mk (s.data.map qsEscapeChar).flatten

/-- Scalar stringification used by querystring.stringify; non-scalar
values serialize to the empty string. -/
def qsPrimitive : JsVal → String
  | .str s => qsEscape s
  | .num n => toString n
  | .bool b => if b then "true" else "false"
  | _ => ""

/-- One field of querystring.stringify output; an array value repeats
the key. -/
def qsPair (k : String) (v : JsVal) : String :=
  match v with
  | .arr xs => String.intercalate "&" (xs.map fun x => qsEscape k ++ "=" ++ qsPrimitive x)
  | _ => qsEscape k ++ "=" ++ qsPrimitive v

/-- querystring.stringify on a parsed body; non-object input yields the
empty string. -/
def qsStringify : JsVal → String
  | .obj fs => String.intercalate "&" (fs.map fun kv => qsPair kv.1 kv.2)
  | _ => ""

/-- Lowercase a string (String.prototype.toLowerCase on ASCII data). -/
def lowerStr (s : String) : String := String.mk (s.data.map Char.toLower)

/-- Uppercase a string (String.prototype.toUpperCase on ASCII data). -/
def upperStr (s : String) : String := String.mk (s.data.map Char.toUpper)

/-- JavaScript String.prototype.includes. -/
def containsSubstr (hay needle : String) : Bool := containsSeq needle.data hay.data

/-- Header lookup in a Node headers object (keys already lowercased by
Node for inbound requests). -/
def hget (hs : List (String × String)) (k : String) : Option String :=
  (hs.find? fun kv => kv.1 == k).map Prod.snd

/-- `delete headers[k]`. -/
def hdel (hs : List (String × String)) (k : String) : List (String × String) :=
  hs.filter fun kv => kv.1 != k

/-- `headers[k] = v`: replace in place or append. -/
def hset (hs : List (String × String)) (k v : String) : List (String × String) :=
  if hs.any (fun kv => kv.1 == k) then hs.map fun kv => if kv.1 == k then (k, v) else kv
  else hs ++ [(k, v)]

/-- The parts of an admitted request forwardBody consults.  `body` is
the Express-parsed body (`none` when nothing was parsed); header keys
are lowercase as Node normalizes them. -/
structure FwdRequest where
  method : String
  headers : List (String × String)
  body : Option JsVal
  remoteAddress : String
  originalUrl : String

/-- Upstream request forwardBody constructs on its manual path. -/
structure UpstreamRequest where
  method : String
  path : String
  headers : List (String × String)
  bodyStr : String

/-- Decision of forwardBody: defer to the streaming proxy middleware,
or issue the manual upstream request. -/
inductive ForwardAction where
  | toProxy
  | manual (u : UpstreamRequest)

/-- Methods forwardBody handles manually. -/
def fwdMethods : List String := ["POST", "PUT", "PATCH", "DELETE"]

/-- Raw content-type header of the inbound request, empty when absent. -/
def fwdCtypeRaw (req : FwdRequest) : String := (hget req.headers "content-type").getD ""

/-- Does the lowercased content-type mention application/json? -/
def fwdIsJson (req : FwdRequest) : Bool :=
  containsSubstr (lowerStr (fwdCtypeRaw req)) "application/json"

/-- Does the lowercased content-type mention
application/x-www-form-urlencoded? -/
def fwdIsForm (req : FwdRequest) : Bool :=
  containsSubstr (lowerStr (fwdCtypeRaw req)) "application/x-www-form-urlencoded"

/-- Body string forwardBody re-serializes from the parsed value. -/
def fwdBodyStr (req : FwdRequest) : String :=
  match req.body with
  | some v => if fwdIsJson req then jsonStringify v else qsStringify v
  | none => ""

/-- Forwarded-ip value: x-forwarded-for, else the socket address. -/
def fwdRealIp (req : FwdRequest) : String :=
  (hget req.headers "x-forwarded-for").getD req.remoteAddress

/-- Upstream header construction of forwardBody: copy, delete
x-api-key / X-API-Key / host / content-length / transfer-encoding, then
set content-type, recomputed content-length (UTF-8 byte length of the
re-serialized body) and x-real-ip. -/
def fwdHeaders (req : FwdRequest) : List (String × String) :=
  let h1 := hdel (hdel (hdel (hdel (hdel req.headers "x-api-key") "X-API-Key") "host")
    "content-length") "transfer-encoding"
  let ct := fwdCtypeRaw req
  let h2 := hset h1 "content-type"
    (if ct != "" then ct else if fwdIsJson req then "application/json"
     else "application/x-www-form-urlencoded")
  let h3 := hset h2 "content-length" (toString (fwdBodyStr req).utf8ByteSize)
  hset h3 "x-real-ip" (fwdRealIp req)

/-- forwardBody from src/routes/proxy.js, reduced to its decision and
the upstream request value it constructs (socket I/O, the 60-second
timeout and response relay sit outside the pure model). -/
def forwardBodyAction (req : FwdRequest) : ForwardAction :=
  let m := upperStr req.method
  if !(fwdMethods.contains m) then .toProxy
  else if !(fwdIsJson req) && !(fwdIsForm req) then .toProxy
  else .manual { method := m, path := req.originalUrl, headers := fwdHeaders req,
                 bodyStr := fwdBodyStr req }

/-! ### Supporting lemmas -/

theorem verifyHash_self (H : String → String → String) (p s : String) :
    verifyHash H p s (H p s) = true := by
  simp [verifyHash]

theorem hexDigit_ne_dot : ∀ n < 16, hexDigit n ≠ '.' := by decide

theorem hexChars_not_dot : ∀ bs : List Nat, (∀ b ∈ bs, b < 256) → '.' ∉ hexChars bs := by
  intro bs
  induction bs with
  | nil => simp [hexChars]
  | cons b l ih =>
    intro h
    have hb : b < 256 := h b (List.mem_cons_self _ _)
    have h1 : hexDigit (b / 16) ≠ '.' := hexDigit_ne_dot _ (by omega)
    have h2 : hexDigit (b % 16) ≠ '.' := hexDigit_ne_dot _ (by omega)
    have h3 := ih fun x hx => h x (List.mem_cons_of_mem _ hx)
    simp only [hexChars, List.mem_cons, not_or]
    exact ⟨fun e => h1 e.symm, fun e => h2 e.symm, h3⟩

theorem hexChars_length : ∀ bs : List Nat, (hexChars bs).length = 2 * bs.length := by
  intro bs
  induction bs with
  | nil => simp [hexChars]
  | cons b l ih => simp [hexChars, ih]; omega

theorem b64encode_length : ∀ bs : List Nat, (b64encode bs).length = (4 * bs.length + 2) / 3 := by
  intro bs
  induction bs using b64encode.induct with
  | case1 b1 b2 b3 rest ih => simp [b64encode, ih]; omega
  | case2 b1 b2 => simp [b64encode]
  | case3 b1 => simp [b64encode]
  | case4 => simp [b64encode]

theorem jsIndexOf_append (a b : List Char) (c : Char) (h : c ∉ a) :
    jsIndexOf c (a ++ c :: b) = (a.length : Int) := by
  induction a with
  | nil => simp [jsIndexOf]
  | cons x xs ih =>
    have hx : x ≠ c := fun e => h (e ▸ List.mem_cons_self _ _)
    have hxs : c ∉ xs := fun hc => h (List.mem_cons_of_mem _ hc)
    simp only [List.cons_append, jsIndexOf, if_neg hx, List.append_eq, ih hxs]
    have hnn : ¬((xs.length : Int) < 0) := by omega
    rw [if_neg hnn]
    simp only [List.length_cons]
    push_cast
    ring

theorem latestBy_append_max (f : α → Nat) (l : List α) (x : α)
    (h : ∀ y ∈ l, f y < f x) : latestBy f (l ++ [x]) = some x := by
  induction l with
  | nil => simp [latestBy]
  | cons y ys ih =>
    have hy : f y < f x := h y (List.mem_cons_self _ _)
    have hys := ih fun z hz => h z (List.mem_cons_of_mem _ hz)
    simp only [List.cons_append, latestBy, List.append_eq, hys, if_pos hy]

theorem id_le_maxFold : ∀ (db : List ApiKeyRow), ∀ r ∈ db,
    r.id ≤ db.foldr (fun r acc => max r.id acc) 0 := by
  intro db
  induction db with
  | nil => simp
  | cons a l ih =>
    intro r hr
    rcases List.mem_cons.mp hr with h | h
    · subst h
      simp only [List.foldr]
      omega
    · have := ih r h
      simp only [List.foldr]
      omega

theorem mem_id_lt_nextId (db : List ApiKeyRow) (r : ApiKeyRow) (hr : r ∈ db) :
    r.id < nextId db := by
  have := id_le_maxFold db r hr
  simp only [nextId]
  omega

theorem createKeyGo_ok_spec (uid : Nat) (label : Option String) (gens : Nat → GeneratedKey)
    (inj : Nat → Option String) (db : List ApiKeyRow) :
    ∀ fuel attempt i k p db',
      createKeyGo uid label gens inj db attempt fuel = .ok (some (i, k, p), db') →
      ∃ j, i = nextId db ∧ k = (gens j).key ∧ p = (gens j).pfx ∧
        db' = insertKeyRow db uid (gens j) label := by
  intro fuel
  induction fuel with
  | zero =>
    intro attempt i k p db' h
    simp [createKeyGo] at h
  | succ n ih =>
    intro attempt i k p db' h
    simp only [createKeyGo] at h
    cases he : insertError db uid (gens attempt).pfx (inj attempt) with
    | none =>
      rw [he] at h
      simp only [Except.ok.injEq, Prod.mk.injEq, Option.some.injEq] at h
      obtain ⟨⟨hi, hk, hp⟩, hdb⟩ := h
      exact ⟨attempt, hi.symm, hk.symm, hp.symm, hdb.symm⟩
    | some msg =>
      rw [he] at h
      dsimp only at h
      by_cases hu : msgHasUnique msg = true
      · rw [if_pos hu] at h
        exact ih (attempt + 1) i k p db' h
      · rw [if_neg hu] at h
        simp at h

theorem createKey_ok_spec (uid : Nat) (label : Option String) (gens : Nat → GeneratedKey)
    (inj : Nat → Option String) (db : List ApiKeyRow) (i : Nat) (k p : String)
    (db' : List ApiKeyRow)
    (hres : createKey uid label gens inj db = .ok (.ok i k p, db')) :
    ∃ j, i = nextId db ∧ k = (gens j).key ∧ p = (gens j).pfx ∧
      db' = insertKeyRow db uid (gens j) label := by
  unfold createKey at hres
  cases hgo : createKeyGo uid label gens inj db 0 3 with
  | error msg => rw [hgo] at hres; simp at hres
  | ok pr =>
    rw [hgo] at hres
    obtain ⟨res, dbr⟩ := pr
    cases res with
    | none => simp at hres
    | some t =>
      obtain ⟨i', k', p'⟩ := t
      simp only [Except.ok.injEq, Prod.mk.injEq, CreateResult.ok.injEq] at hres
      obtain ⟨⟨hi, hk, hp⟩, hdb⟩ := hres
      subst hi hk hp hdb
      exact createKeyGo_ok_spec uid label gens inj db 3 0 i' k' p' dbr hgo

/-! ### C1 -/

/-- C1: every key produced by generateApiKey (well-formed randomness:
4 prefix bytes, 24 secret bytes) and persisted for a user by createKey
is accepted by validateFullKey on the resulting table, returning ok with
that user's id and the stored row's id and prefix. -/
theorem createKey_then_validate (H : String → String → String)
    (uid : Nat) (label : Option String) (gens : Nat → GeneratedKey)
    (inj : Nat → Option String) (db : List ApiKeyRow)
    (i : Nat) (k p : String) (db' : List ApiKeyRow)
    (hwf : ∀ n, ∃ pb sb salt, pb.length = 4 ∧ (∀ b ∈ pb, b < 256) ∧ sb.length = 24 ∧
      gens n = generateApiKey H pb sb salt)
    (hres : createKey uid label gens inj db = .ok (.ok i k p, db')) :
    validateFullKey H db' k = .ok i uid p := by
  obtain ⟨j, hi, hk, hp, hdb⟩ := createKey_ok_spec uid label gens inj db i k p db' hres
  obtain ⟨pb, sb, salt, hpb, hpb256, hsb, hg⟩ := hwf j
  rw [hg] at hk hp hdb
  subst hi hk hp hdb
  have hkdata : (generateApiKey H pb sb salt).key.data
      = hexChars pb ++ '.' :: b64encode sb := by
    simp [generateApiKey]
  have hlenhex : (hexChars pb).length = 8 := by rw [hexChars_length, hpb]
  have hlen64 : (b64encode sb).length = 32 := by rw [b64encode_length, hsb]
  have hnd : '.' ∉ hexChars pb := hexChars_not_dot pb hpb256
  have hlen : (hexChars pb ++ '.' :: b64encode sb).length = 41 := by
    simp [hlenhex, hlen64]
  have hidx : jsIndexOf '.' (hexChars pb ++ '.' :: b64encode sb) = ((hexChars pb).length : Int) :=
    jsIndexOf_append _ _ '.' hnd
  have htake : (hexChars pb ++ '.' :: b64encode sb).take (((hexChars pb).length : Int)).toNat
      = hexChars pb := by
    rw [Int.toNat_natCast, List.take_left]
  have hrow : findActiveByPfx (insertKeyRow db uid (generateApiKey H pb sb salt) label)
      (String.mk (hexChars pb))
      = some { id := nextId db, user_id := uid, key_pfx := (generateApiKey H pb sb salt).pfx,
               key_hash := (generateApiKey H pb sb salt).hash,
               salt := (generateApiKey H pb sb salt).salt, label := label,
               revoked_at := none, last_used_at := none } := by
    unfold findActiveByPfx insertKeyRow
    rw [List.filter_append]
    have hpfx : (generateApiKey H pb sb salt).pfx = String.mk (hexChars pb) := by
      simp [generateApiKey]
    rw [hpfx]
    simp only [List.filter_cons, List.filter_nil, Option.isNone_none, beq_self_eq_true,
      Bool.and_true, if_true, and_self, ite_true]
    apply latestBy_append_max
    intro y hy
    have hymem : y ∈ db := (List.mem_filter.mp hy).1
    exact mem_id_lt_nextId db y hymem
  have hhash : (generateApiKey H pb sb salt).hash
      = H (generateApiKey H pb sb salt).key (generateApiKey H pb sb salt).salt := by
    simp [generateApiKey]
  simp only [validateFullKey, hkdata, hlen, hidx, htake]
  rw [if_neg (by omega)]
  rw [if_neg (by rw [hlenhex]; norm_num)]
  rw [hrow]
  simp only [hhash, verifyHash_self, if_true]

/-- Witness for C1: a concrete creation followed by validation. -/
theorem createKey_then_validate_witness :
    validateFullKey (fun _ _ => "h")
      [{ id := 1, user_id := 7, key_pfx := "01020304", key_hash := "h", salt := "salt",
         label := none, revoked_at := none, last_used_at := none }]
      "01020304.AAAAAAAAAAAAAAAAAAAAAAAAAAAAAAAA" = .ok 1 7 "01020304" :=
  createKey_then_validate (fun _ _ => "h") 7 none
    (fun _ => generateApiKey (fun _ _ => "h") [1, 2, 3, 4] (List.replicate 24 0) "salt")
    (fun _ => none) [] 1 "01020304.AAAAAAAAAAAAAAAAAAAAAAAAAAAAAAAA" "01020304"
    [{ id := 1, user_id := 7, key_pfx := "01020304", key_hash := "h", salt := "salt",
       label := none, revoked_at := none, last_used_at := none }]
    (fun _ => ⟨[1, 2, 3, 4], List.replicate 24 0, "salt", rfl, by decide, by decide, rfl⟩)
    rfl

/-! ### C9 -/

theorem insertError_collision (db : List ApiKeyRow) (uid : Nat) (p : String)
    (inj : Option String) (h : hasUserPfx db uid p = true) :
    insertError db uid p inj
      = some "UNIQUE constraint failed: api_keys.user_id, api_keys.key_prefix" := by
  simp [insertError, h]

theorem msgHasUnique_constraint :
    msgHasUnique "UNIQUE constraint failed: api_keys.user_id, api_keys.key_prefix" = true := by
  decide

/-- C9: createKey retries key generation on a (user, prefix) uniqueness
violation for up to three attempts, reports failed_to_create when every
attempt collides, succeeds on the first collision-free attempt, and any
persistence failure that is not a uniqueness violation propagates as a
thrown error without further retries. -/
theorem createKey_retry_spec (uid : Nat) (label : Option String)
    (gens : Nat → GeneratedKey) (inj : Nat → Option String) (db : List ApiKeyRow) :
    ((∀ j < 3, hasUserPfx db uid (gens j).pfx = true) →
       createKey uid label gens inj db = .ok (.failed, db)) ∧
    (∀ i < 3, (∀ j < i, hasUserPfx db uid (gens j).pfx = true) →
       hasUserPfx db uid (gens i).pfx = false → inj i = none →
       createKey uid label gens inj db
         = .ok (.ok (nextId db) (gens i).key (gens i).pfx, insertKeyRow db uid (gens i) label)) ∧
    (∀ i < 3, (∀ j < i, hasUserPfx db uid (gens j).pfx = true) →
       hasUserPfx db uid (gens i).pfx = false → ∀ msg, inj i = some msg →
       msgHasUnique msg = false → createKey uid label gens inj db = .error msg) := by
  refine ⟨?_, ?_, ?_⟩
  · intro hall
    have h0 := insertError_collision db uid (gens 0).pfx (inj 0) (hall 0 (by omega))
    have h1 := insertError_collision db uid (gens 1).pfx (inj 1) (hall 1 (by omega))
    have h2 := insertError_collision db uid (gens 2).pfx (inj 2) (hall 2 (by omega))
    simp [createKey, createKeyGo, h0, h1, h2, msgHasUnique_constraint]
  · intro i hi hprev hcol hinj
    interval_cases i
    · have h0 : insertError db uid (gens 0).pfx (inj 0) = none := by
        simp [insertError, hcol, hinj]
      simp [createKey, createKeyGo, h0]
    · have h0 := insertError_collision db uid (gens 0).pfx (inj 0) (hprev 0 (by omega))
      have h1 : insertError db uid (gens 1).pfx (inj 1) = none := by
        simp [insertError, hcol, hinj]
      simp [createKey, createKeyGo, h0, h1, msgHasUnique_constraint]
    · have h0 := insertError_collision db uid (gens 0).pfx (inj 0) (hprev 0 (by omega))
      have h1 := insertError_collision db uid (gens 1).pfx (inj 1) (hprev 1 (by omega))
      have h2 : insertError db uid (gens 2).pfx (inj 2) = none := by
        simp [insertError, hcol, hinj]
      simp [createKey, createKeyGo, h0, h1, h2, msgHasUnique_constraint]
  · intro i hi hprev hcol msg hinj hmsg
    interval_cases i
    · have h0 : insertError db uid (gens 0).pfx (inj 0) = some msg := by
        simp [insertError, hcol, hinj]
      simp [createKey, createKeyGo, h0, hmsg]
    · have h0 := insertError_collision db uid (gens 0).pfx (inj 0) (hprev 0 (by omega))
      have h1 : insertError db uid (gens 1).pfx (inj 1) = some msg := by
        simp [insertError, hcol, hinj]
      simp [createKey, createKeyGo, h0, h1, msgHasUnique_constraint, hmsg]
    · have h0 := insertError_collision db uid (gens 0).pfx (inj 0) (hprev 0 (by omega))
      have h1 := insertError_collision db uid (gens 1).pfx (inj 1) (hprev 1 (by omega))
      have h2 : insertError db uid (gens 2).pfx (inj 2) = some msg := by
        simp [insertError, hcol, hinj]
      simp [createKey, createKeyGo, h0, h1, h2, msgHasUnique_constraint, hmsg]

/-- Witness for C9: with every attempt colliding on the stored
(user, prefix) pair, createKey reports failed_to_create and leaves the
table unchanged. -/
theorem createKey_retry_spec_witness :
    createKey 7 none
      (fun _ => generateApiKey (fun _ _ => "h") [1, 2, 3, 4] (List.replicate 24 0) "salt")
      (fun _ => none)
      [{ id := 1, user_id := 7, key_pfx := "01020304", key_hash := "h", salt := "salt",
         label := none, revoked_at := none, last_used_at := none }]
      = .ok (.failed,
          [{ id := 1, user_id := 7, key_pfx := "01020304", key_hash := "h", salt := "salt",
             label := none, revoked_at := none, last_used_at := none }]) :=
  (createKey_retry_spec 7 none
    (fun _ => generateApiKey (fun _ _ => "h") [1, 2, 3, 4] (List.replicate 24 0) "salt")
    (fun _ => none)
    [{ id := 1, user_id := 7, key_pfx := "01020304", key_hash := "h", salt := "salt",
       label := none, revoked_at := none, last_used_at := none }]).1
    (by decide)

/-! ### C5 -/

/-- C5 (amended): when every stored row carrying the key's prefix is
revoked — and in particular when the prefix is entirely unknown, making
the hypothesis vacuous — validateFullKey returns not_found, so such
revoked keys and unknown keys are indistinguishable to the caller. -/
theorem validate_revoked_not_found (H : String → String → String) (db : List ApiKeyRow)
    (pfxStr : String) (secret : List Char)
    (hrev : ∀ r ∈ db, r.key_pfx = pfxStr → r.revoked_at ≠ none)
    (hnd : '.' ∉ pfxStr.data) (hne : pfxStr.data ≠ [])
    (hlen : 12 ≤ pfxStr.data.length + 1 + secret.length) :
    validateFullKey H db (String.mk (pfxStr.data ++ '.' :: secret)) = .fail "not_found" := by
  have hfil : db.filter (fun r => r.key_pfx == pfxStr && r.revoked_at.isNone) = [] := by
    rw [List.filter_eq_nil_iff]
    intro r hr
    by_cases hp : r.key_pfx = pfxStr
    · have hv := hrev r hr hp
      simp [hp, Option.isNone_iff_eq_none, hv]
    · simp [hp]
  have hidx := jsIndexOf_append pfxStr.data secret '.' hnd
  have hpos : 0 < pfxStr.data.length := List.length_pos.mpr hne
  have htake : (pfxStr.data ++ '.' :: secret).take ((pfxStr.data.length : Int)).toNat
      = pfxStr.data := by
    rw [Int.toNat_natCast, List.take_left]
  have hmk : String.mk pfxStr.data = pfxStr := rfl
  simp only [validateFullKey, hidx, htake, hmk]
  rw [if_neg (by simp only [List.length_append, List.length_cons]; omega)]
  rw [if_neg (by omega)]
  unfold findActiveByPfx
  rw [hfil]
  simp [latestBy]

/-- Counterexample to C5 as stated: the table holds a revoked key
(id 1) whose plaintext "abcdefgh.0123" verifies against its own stored
salt and hash, yet validateFullKey reports mismatch rather than
not_found, because another user's active key (id 2) shares the stored
prefix and is looked up instead. -/
theorem validate_revoked_counterexample :
    verifyHash (fun _ s => if s == "sA" then "AA" else "AQ") "abcdefgh.0123" "sA" "AA" = true ∧
    (some (5 : Int) ≠ none) ∧
    validateFullKey (fun _ s => if s == "sA" then "AA" else "AQ")
      [{ id := 1, user_id := 1, key_pfx := "abcdefgh", key_hash := "AA", salt := "sA",
         label := none, revoked_at := some 5, last_used_at := none },
       { id := 2, user_id := 2, key_pfx := "abcdefgh", key_hash := "AA", salt := "sB",
         label := none, revoked_at := none, last_used_at := none }]
      "abcdefgh.0123" = .fail "mismatch" := by
  exact ⟨by decide, by decide, by decide⟩

/-- Witness for C5 (amended) at a concrete table: a revoked row's key
and an unknown prefix both produce not_found. -/
theorem validate_revoked_not_found_witness :
    validateFullKey (fun _ _ => "h")
      [{ id := 1, user_id := 7, key_pfx := "abcdefgh", key_hash := "h", salt := "s",
         label := none, revoked_at := some 3, last_used_at := none }]
      (String.mk ("abcdefgh".data ++ '.' :: "0123".data)) = .fail "not_found" :=
  validate_revoked_not_found (fun _ _ => "h")
    [{ id := 1, user_id := 7, key_pfx := "abcdefgh", key_hash := "h", salt := "s",
       label := none, revoked_at := some 3, last_used_at := none }]
    "abcdefgh" "0123".data (by decide) (by decide) (by decide) (by decide)

/-! ### C6 -/

/-- C6: a request whose normalized path is on the fixed deny-list is
answered not-found with only the audit entry appended — no credential
lookup, no quota work, no usage increment, and no forwarding — for
every key header, state, limit and time. -/
theorem guard_blocked_path (H : String → String → String) (limit : Nat)
    (st : GuardState) (req : ProxyRequest) (nowMs : Nat)
    (hb : blockedInternalDocsPaths.contains (normalizeInternalPath req.path) = true) :
    proxyAuthGuard H limit st req nowMs
      = (.notFound404,
         logAudit st none "proxy_block" (.blockDocs (normalizeInternalPath req.path))) := by
  simp only [proxyAuthGuard]
  rw [if_pos hb]

/-- Witness for C6: a request to /docs carrying a perfectly valid key
over a table that would validate it still yields the not-found outcome. -/
theorem guard_blocked_path_witness :
    proxyAuthGuard (fun _ _ => "h") 50
      { apiKeys := [{ id := 1, user_id := 7, key_pfx := "abcdefgh", key_hash := "h",
                      salt := "s", label := none, revoked_at := none, last_used_at := none }],
        usage := [], audits := [] }
      { path := "/docs", apiKeyHeader := some "abcdefgh.0123", method := "GET" } 0
      = (.notFound404,
         { apiKeys := [{ id := 1, user_id := 7, key_pfx := "abcdefgh", key_hash := "h",
                         salt := "s", label := none, revoked_at := none, last_used_at := none }],
           usage := [],
           audits := [{ user_id := none, type := "proxy_block",
                        detail := .blockDocs "/docs" }] }) := by
  rw [guard_blocked_path (fun _ _ => "h") 50
    { apiKeys := [{ id := 1, user_id := 7, key_pfx := "abcdefgh", key_hash := "h",
                    salt := "s", label := none, revoked_at := none, last_used_at := none }],
      usage := [], audits := [] }
    { path := "/docs", apiKeyHeader := some "abcdefgh.0123", method := "GET" } 0 (by decide)]
  decide

/-! ### C4 -/

/-- C4 (amended): when credential validation fails, the specific reason
is recorded in the audit entry, and the response is the generic 401
"Invalid API key" — whose JSON body nevertheless carries the specific
reason field, so the reason is disclosed to the caller as well. -/
theorem guard_invalid_key (H : String → String → String) (limit : Nat)
    (st : GuardState) (req : ProxyRequest) (nowMs : Nat) (apiKey reason : String)
    (hb : blockedInternalDocsPaths.contains (normalizeInternalPath req.path) = false)
    (hk : req.apiKeyHeader = some apiKey)
    (hv : validateFullKey H st.apiKeys apiKey = .fail reason) :
    proxyAuthGuard H limit st req nowMs
      = (.invalidKey401 reason,
         logAudit st none "proxy_block"
           (.blockInvalidKey reason (normalizeInternalPath req.path))) := by
  simp only [proxyAuthGuard]
  rw [if_neg (by rw [hb]; exact Bool.false_ne_true)]
  rw [hk]
  dsimp only
  rw [hv]

/-- Counterexample to C4 as stated: the 401 responses to a format
failure and to an unknown-prefix failure differ, because the response
body carries the specific reason — the caller can tell which validation
failure occurred. -/
theorem guard_invalid_key_counterexample :
    (proxyAuthGuard (fun _ _ => "h") 50 { apiKeys := [], usage := [], audits := [] }
        { path := "/x", apiKeyHeader := some "ab", method := "GET" } 0).1
      = .invalidKey401 "format" ∧
    (proxyAuthGuard (fun _ _ => "h") 50 { apiKeys := [], usage := [], audits := [] }
        { path := "/x", apiKeyHeader := some "abcd.efghijklmn", method := "GET" } 0).1
      = .invalidKey401 "not_found" ∧
    GuardOutcome.invalidKey401 "format" ≠ GuardOutcome.invalidKey401 "not_found" := by
  exact ⟨by decide, by decide, by decide⟩

/-- Witness for C4 (amended): on a malformed key the audit entry and
the response both carry the reason "format". -/
theorem guard_invalid_key_witness :
    proxyAuthGuard (fun _ _ => "h") 50 { apiKeys := [], usage := [], audits := [] }
      { path := "/x", apiKeyHeader := some "ab", method := "GET" } 0
      = (.invalidKey401 "format",
         { apiKeys := [], usage := [],
           audits := [{ user_id := none, type := "proxy_block",
                        detail := .blockInvalidKey "format" "/x" }] }) := by
  rw [guard_invalid_key (fun _ _ => "h") 50 { apiKeys := [], usage := [], audits := [] }
    { path := "/x", apiKeyHeader := some "ab", method := "GET" } 0 "ab" "format"
    (by decide) rfl (by decide)]
  decide

/-! ### C2 support -/

theorem find?_map_of_pred (p : α → Bool) (f : α → α) (hp : ∀ x, p (f x) = p x) :
    ∀ l : List α, List.find? p (l.map fun x => if p x then f x else x)
      = (List.find? p l).map f := by
  intro l
  induction l with
  | nil => simp
  | cons a l ih =>
    cases hpa : p a with
    | true =>
      simp only [List.map_cons, if_pos hpa, List.find?_cons, hp, hpa]
      simp [hp, hpa]
    | false =>
      have hna : ¬p a = true := by simp [hpa]
      simp only [List.map_cons, if_neg hna, List.find?_cons, hpa, ih]
      simp [hpa]

theorem find?_map_incr (uid day : Nat) (usage : List UsageRow) :
    List.find? (fun r => r.user_id == uid && r.day == day)
        (usage.map fun r =>
          if r.user_id == uid && r.day == day then { r with count := r.count + 1 } else r)
      = (List.find? (fun r => r.user_id == uid && r.day == day) usage).map
          fun r => { r with count := r.count + 1 } :=
  find?_map_of_pred (fun r => r.user_id == uid && r.day == day)
    (fun r => { r with count := r.count + 1 }) (fun _ => rfl) usage

theorem getTodayCount_increment (usage : List UsageRow) (uid day : Nat) :
    getTodayCount (incrementToday usage uid day).2 uid day
      = getTodayCount usage uid day + 1 := by
  unfold getTodayCount incrementToday incrementForDate
  cases hf : List.find? (fun r => r.user_id == uid && r.day == day) usage with
  | none =>
    dsimp only
    unfold getCountForDate
    rw [List.find?_append, hf]
    simp
  | some r =>
    dsimp only
    unfold getCountForDate
    rw [find?_map_incr, hf]
    simp

theorem latestBy_map_id (g : ApiKeyRow → ApiKeyRow) (hid : ∀ r, (g r).id = r.id) :
    ∀ l : List ApiKeyRow, latestBy ApiKeyRow.id (l.map g)
      = (latestBy ApiKeyRow.id l).map g := by
  intro l
  induction l with
  | nil => simp [latestBy]
  | cons x xs ih =>
    simp only [List.map_cons, latestBy, ih]
    cases latestBy ApiKeyRow.id xs with
    | none => simp
    | some m =>
      simp only [Option.map_some', hid]
      by_cases h : x.id < m.id <;> simp [h]

theorem findActiveByPfx_map (g : ApiKeyRow → ApiKeyRow)
    (hid : ∀ r, (g r).id = r.id) (hpfx : ∀ r, (g r).key_pfx = r.key_pfx)
    (hrev : ∀ r, (g r).revoked_at = r.revoked_at) (db : List ApiKeyRow) (p : String) :
    findActiveByPfx (db.map g) p = (findActiveByPfx db p).map g := by
  unfold findActiveByPfx
  rw [List.filter_map]
  have hpred : ((fun r : ApiKeyRow => r.key_pfx == p && r.revoked_at.isNone) ∘ g)
      = fun r : ApiKeyRow => r.key_pfx == p && r.revoked_at.isNone := by
    funext r
    simp [Function.comp, hpfx, hrev]
  rw [hpred, latestBy_map_id g hid]

theorem validateFullKey_touch (H : String → String → String) (db : List ApiKeyRow)
    (kid : Nat) (t : Int) (k : String) :
    validateFullKey H (touchKeyUsage db kid t) k = validateFullKey H db k := by
  have hmap : touchKeyUsage db kid t
      = db.map fun r => if r.id == kid then { r with last_used_at := some t } else r := rfl
  have hid : ∀ r : ApiKeyRow,
      ((if r.id == kid then { r with last_used_at := some t } else r) : ApiKeyRow).id = r.id := by
    intro r; split <;> rfl
  have hpfx : ∀ r : ApiKeyRow,
      ((if r.id == kid then { r with last_used_at := some t } else r) : ApiKeyRow).key_pfx
        = r.key_pfx := by
    intro r; split <;> rfl
  have hrev : ∀ r : ApiKeyRow,
      ((if r.id == kid then { r with last_used_at := some t } else r) : ApiKeyRow).revoked_at
        = r.revoked_at := by
    intro r; split <;> rfl
  have hsalt : ∀ r : ApiKeyRow,
      ((if r.id == kid then { r with last_used_at := some t } else r) : ApiKeyRow).salt
        = r.salt := by
    intro r; split <;> rfl
  have hhash : ∀ r : ApiKeyRow,
      ((if r.id == kid then { r with last_used_at := some t } else r) : ApiKeyRow).key_hash
        = r.key_hash := by
    intro r; split <;> rfl
  have huser : ∀ r : ApiKeyRow,
      ((if r.id == kid then { r with last_used_at := some t } else r) : ApiKeyRow).user_id
        = r.user_id := by
    intro r; split <;> rfl
  simp only [validateFullKey, hmap,
    findActiveByPfx_map _ hid hpfx hrev db]
  split
  · rfl
  · split
    · rfl
    · cases hf : findActiveByPfx db (String.mk (k.data.take (jsIndexOf '.' k.data).toNat)) with
      | none => simp
      | some row =>
        by_cases hkid : row.id = kid <;> simp [hkid]

theorem guard_step_forward (H : String → String → String) (limit : Nat)
    (st : GuardState) (req : ProxyRequest) (nowMs : Nat) (uid kid : Nat)
    (pfx apiKey : String)
    (hb : blockedInternalDocsPaths.contains (normalizeInternalPath req.path) = false)
    (hk : req.apiKeyHeader = some apiKey)
    (hv : validateFullKey H st.apiKeys apiKey = .ok kid uid pfx)
    (hc : getTodayCount st.usage uid (nowMs / 86400000) < limit) :
    proxyAuthGuard H limit st req nowMs
      = (.forward uid kid pfx,
         logAudit { st with usage := (incrementToday st.usage uid (nowMs / 86400000)).2,
                            apiKeys := touchKeyUsage st.apiKeys kid (nowMs : Int) }
           (some uid) "proxy_hit" (.proxyHit (normalizeInternalPath req.path) req.method)) := by
  simp only [proxyAuthGuard]
  rw [if_neg (by rw [hb]; exact Bool.false_ne_true)]
  rw [hk]
  dsimp only
  rw [hv]
  dsimp only
  rw [if_neg (by simp [isOverLimit]; omega)]

theorem runGuardN_succ_right (H : String → String → String) (limit : Nat)
    (req : ProxyRequest) (nowMs : Nat) : ∀ (n : Nat) (st : GuardState),
    runGuardN H limit req nowMs (n + 1) st
      = ((runGuardN H limit req nowMs n st).1
           ++ [(proxyAuthGuard H limit (runGuardN H limit req nowMs n st).2 req nowMs).1],
         (proxyAuthGuard H limit (runGuardN H limit req nowMs n st).2 req nowMs).2) := by
  intro n
  induction n with
  | zero => intro st; simp [runGuardN]
  | succ m ih =>
    intro st
    rw [show m + 1 + 1 = (m + 1) + 1 from rfl]
    conv_lhs => rw [runGuardN]
    rw [ih]
    conv_rhs => rw [runGuardN]
    simp

theorem runGuardN_admits (H : String → String → String) (limit : Nat)
    (req : ProxyRequest) (nowMs : Nat) (uid kid : Nat) (pfx apiKey : String)
    (hb : blockedInternalDocsPaths.contains (normalizeInternalPath req.path) = false)
    (hk : req.apiKeyHeader = some apiKey) :
    ∀ (n : Nat) (st : GuardState),
      validateFullKey H st.apiKeys apiKey = .ok kid uid pfx →
      getTodayCount st.usage uid (nowMs / 86400000) + n ≤ limit →
      (runGuardN H limit req nowMs n st).1 = List.replicate n (.forward uid kid pfx) ∧
      getTodayCount ((runGuardN H limit req nowMs n st).2).usage uid (nowMs / 86400000)
        = getTodayCount st.usage uid (nowMs / 86400000) + n ∧
      validateFullKey H ((runGuardN H limit req nowMs n st).2).apiKeys apiKey
        = .ok kid uid pfx := by
  intro n
  induction n with
  | zero =>
    intro st hv hle
    exact ⟨rfl, rfl, hv⟩
  | succ m ih =>
    intro st hv hle
    have hc : getTodayCount st.usage uid (nowMs / 86400000) < limit := by omega
    have hstep := guard_step_forward H limit st req nowMs uid kid pfx apiKey hb hk hv hc
    set st' := logAudit { st with usage := (incrementToday st.usage uid (nowMs / 86400000)).2,
                                  apiKeys := touchKeyUsage st.apiKeys kid (nowMs : Int) }
      (some uid) "proxy_hit" (.proxyHit (normalizeInternalPath req.path) req.method) with hst'
    have hv' : validateFullKey H st'.apiKeys apiKey = .ok kid uid pfx := by
      rw [hst']
      simp only [logAudit]
      rw [validateFullKey_touch]
      exact hv
    have hcount' : getTodayCount st'.usage uid (nowMs / 86400000)
        = getTodayCount st.usage uid (nowMs / 86400000) + 1 := by
      rw [hst']
      simp only [logAudit]
      exact getTodayCount_increment st.usage uid (nowMs / 86400000)
    have hle' : getTodayCount st'.usage uid (nowMs / 86400000) + m ≤ limit := by
      rw [hcount']; omega
    obtain ⟨ho, hcnt, hval⟩ := ih st' hv' hle'
    refine ⟨?_, ?_, ?_⟩
    · simp only [runGuardN, hstep, ho, List.replicate_succ]
    · simp only [runGuardN, hstep, hcnt, hcount']
      omega
    · simp only [runGuardN, hstep, hval]

/-! ### C2 -/

/-- C2: with configured daily limit L, fixed time nowMs and a key that
validates to the user, starting from a fresh count for the day, running
L + 1 sequential requests admits exactly the first L (all forwarded) and
rejects the (L+1)-th with the 429 quota response carrying the current
count L, the limit L, and reset_seconds equal to the whole seconds
remaining until the next UTC midnight. -/
theorem guard_daily_quota (H : String → String → String) (limit : Nat)
    (st : GuardState) (req : ProxyRequest) (nowMs : Nat) (uid kid : Nat)
    (pfx apiKey : String)
    (hb : blockedInternalDocsPaths.contains (normalizeInternalPath req.path) = false)
    (hk : req.apiKeyHeader = some apiKey)
    (hv : validateFullKey H st.apiKeys apiKey = .ok kid uid pfx)
    (h0 : getTodayCount st.usage uid (nowMs / 86400000) = 0) :
    (runGuardN H limit req nowMs (limit + 1) st).1
      = List.replicate limit (.forward uid kid pfx)
        ++ [.quota429 limit limit (secondsUntilNextUtcMidnight nowMs)] ∧
    secondsUntilNextUtcMidnight nowMs = (86400000 - nowMs % 86400000) / 1000 := by
  constructor
  · obtain ⟨ho, hcnt, hval⟩ := runGuardN_admits H limit req nowMs uid kid pfx apiKey hb hk
      limit st hv (by omega)
    have hcntL : getTodayCount ((runGuardN H limit req nowMs limit st).2).usage uid
        (nowMs / 86400000) = limit := by rw [hcnt, h0]; omega
    have hstep : (proxyAuthGuard H limit ((runGuardN H limit req nowMs limit st).2) req nowMs).1
        = .quota429 limit limit (secondsUntilNextUtcMidnight nowMs) := by
      simp only [proxyAuthGuard]
      rw [if_neg (by rw [hb]; exact Bool.false_ne_true)]
      rw [hk]
      dsimp only
      rw [hval]
      dsimp only
      rw [if_pos (by simp [isOverLimit, hcntL])]
      dsimp only
      rw [hcntL]
    rw [runGuardN_succ_right, ho, hstep]
  · have harg : (nowMs / 86400000 + 1) * 86400000 - nowMs = 86400000 - nowMs % 86400000 := by
      omega
    simp [secondsUntilNextUtcMidnight, harg]

/-- Witness for C2: limit 1, one valid key, fresh day, clock at
23:59:30 UTC — the first request forwards and the second is rejected
with count 1, limit 1 and reset_seconds = 30. -/
theorem guard_daily_quota_witness :
    (runGuardN (fun _ _ => "h") 1
        { path := "/api", apiKeyHeader := some "abcdefgh.0123", method := "GET" } 86370000 2
        { apiKeys := [{ id := 1, user_id := 7, key_pfx := "abcdefgh", key_hash := "h",
                        salt := "s", label := none, revoked_at := none, last_used_at := none }],
          usage := [], audits := [] }).1
      = [.forward 7 1 "abcdefgh", .quota429 1 1 30] := by
  have h := guard_daily_quota (fun _ _ => "h") 1
    { apiKeys := [{ id := 1, user_id := 7, key_pfx := "abcdefgh", key_hash := "h",
                    salt := "s", label := none, revoked_at := none, last_used_at := none }],
      usage := [], audits := [] }
    { path := "/api", apiKeyHeader := some "abcdefgh.0123", method := "GET" } 86370000
    7 1 "abcdefgh" "abcdefgh.0123" (by decide) rfl (by decide) rfl
  rw [h.1]
  have h30 : secondsUntilNextUtcMidnight 86370000 = 30 := by decide
  rw [h30]
  rfl

/-! ### C7 -/

/-- C7: canSendOtp rejects with rate_minute and the ceil-rounded
remaining wait in seconds whenever the most recent issuance for the
email was sent less than 120 seconds before now; failing that, it
rejects with rate_hour whenever five or more issuances exist for the
email within the trailing 60 minutes; and otherwise it permits
issuance. -/
theorem canSendOtp_spec (otps : List OtpRow) (email : String) (now : Int) :
    (∀ l, latestOtpFor otps email = some l → ∀ t, l.last_sent_at = some t →
       now - t < 120 * 1000 →
       canSendOtp otps email now = .rateMinute ((120 * 1000 - (now - t) + 999) / 1000)) ∧
    ((∀ l, latestOtpFor otps email = some l → ∀ t, l.last_sent_at = some t →
        120 * 1000 ≤ now - t) → 5 ≤ otpHourCount otps email now →
       canSendOtp otps email now = .rateHour) ∧
    ((∀ l, latestOtpFor otps email = some l → ∀ t, l.last_sent_at = some t →
        120 * 1000 ≤ now - t) → otpHourCount otps email now < 5 →
       canSendOtp otps email now = .ok) := by
  refine ⟨?_, ?_, ?_⟩
  · intro l hl t ht hlt
    simp only [canSendOtp, hl, ht]
    rw [if_pos (by omega)]
  · intro hmin hcnt
    simp only [canSendOtp]
    cases hl : latestOtpFor otps email with
    | none =>
      dsimp only
      rw [if_pos hcnt]
    | some l =>
      cases ht : l.last_sent_at with
      | none =>
        dsimp only
        rw [ht]
        dsimp only
        rw [if_pos hcnt]
      | some t =>
        have hle := hmin l hl t ht
        dsimp only
        rw [ht]
        dsimp only
        rw [if_neg (by omega)]
        dsimp only
        rw [if_pos hcnt]
  · intro hmin hcnt
    simp only [canSendOtp]
    cases hl : latestOtpFor otps email with
    | none =>
      dsimp only
      rw [if_neg (by omega)]
    | some l =>
      cases ht : l.last_sent_at with
      | none =>
        dsimp only
        rw [ht]
        dsimp only
        rw [if_neg (by omega)]
      | some t =>
        have hle := hmin l hl t ht
        dsimp only
        rw [ht]
        dsimp only
        rw [if_neg (by omega)]
        dsimp only
        rw [if_neg (by omega)]

/-- Witness for C7: one issuance sent at time 0, asked again at 60
seconds — rejected with rate_minute and a 60-second wait. -/
theorem canSendOtp_spec_witness :
    canSendOtp [{ id := 1, email := "e", code_hash := "h", salt := "s",
                  expires_at := some 600000, created_at := 0, last_sent_at := some 0,
                  consumed_at := none }] "e" 60000 = .rateMinute 60 := by
  have h := (canSendOtp_spec
      [{ id := 1, email := "e", code_hash := "h", salt := "s",
         expires_at := some 600000, created_at := 0, last_sent_at := some 0,
         consumed_at := none }] "e" 60000).1
      { id := 1, email := "e", code_hash := "h", salt := "s", expires_at := some 600000,
        created_at := 0, last_sent_at := some 0, consumed_at := none }
      (by decide) 0 rfl (by decide)
  rw [h]
  decide

/-! ### OTP candidate lemmas -/

theorem mem_insertDescBy (f : α → Nat) (a x : α) :
    ∀ l : List α, x ∈ insertDescBy f a l ↔ x = a ∨ x ∈ l := by
  intro l
  induction l with
  | nil => simp [insertDescBy]
  | cons y ys ih =>
    by_cases h : f y < f a
    · simp [insertDescBy, h, List.mem_cons]
    · simp only [insertDescBy, if_neg h, List.mem_cons, ih]
      tauto

theorem mem_sortDescBy (f : α → Nat) (x : α) :
    ∀ l : List α, x ∈ sortDescBy f l ↔ x ∈ l := by
  intro l
  induction l with
  | nil => simp [sortDescBy]
  | cons y ys ih =>
    simp only [sortDescBy, mem_insertDescBy, List.mem_cons, ih]

theorem sortDescBy_eq_nil (f : α → Nat) :
    ∀ l : List α, sortDescBy f l = [] ↔ l = [] := by
  intro l
  cases l with
  | nil => simp [sortDescBy]
  | cons y ys =>
    simp only [sortDescBy]
    constructor
    · intro h
      have : y ∈ insertDescBy f y (sortDescBy f ys) := (mem_insertDescBy f y y _).mpr (.inl rfl)
      rw [h] at this
      exact absurd this (List.not_mem_nil y)
    · intro h
      exact absurd h (List.cons_ne_nil y ys)

theorem otpCandidates_eq_nil (otps : List OtpRow) (email : String) :
    otpCandidates otps email = [] ↔ unconsumedFor otps email = [] := by
  unfold otpCandidates
  rw [List.take_eq_nil_iff]
  norm_num
  exact sortDescBy_eq_nil OtpRow.id (unconsumedFor otps email)

theorem findOtpMatch_spec (H : String → String → String) (code : String) (now : Int) :
    ∀ (l : List OtpRow) (r : OtpRow), findOtpMatch H code now l = some r →
      r ∈ l ∧ otpExpired r now = false ∧ otpMatches H code r = true := by
  intro l
  induction l with
  | nil => intro r h; simp [findOtpMatch] at h
  | cons a l ih =>
    intro r h
    by_cases he : otpExpired a now = true
    · rw [findOtpMatch, if_pos he] at h
      obtain ⟨hm, hx, ho⟩ := ih r h
      exact ⟨List.mem_cons_of_mem _ hm, hx, ho⟩
    · rw [findOtpMatch, if_neg he] at h
      by_cases hm : otpMatches H code a = true
      · rw [if_pos hm] at h
        obtain rfl : a = r := by injection h
        exact ⟨List.mem_cons_self _ _, by simpa using he, hm⟩
      · rw [if_neg hm] at h
        obtain ⟨hmem, hx, ho⟩ := ih r h
        exact ⟨List.mem_cons_of_mem _ hmem, hx, ho⟩

theorem mem_otpCandidates (otps : List OtpRow) (email : String) (r : OtpRow)
    (h : r ∈ otpCandidates otps email) :
    r ∈ otps ∧ r.email = email ∧ r.consumed_at = none := by
  unfold otpCandidates at h
  have h1 : r ∈ sortDescBy OtpRow.id (unconsumedFor otps email) := List.take_subset _ _ h
  have h2 : r ∈ unconsumedFor otps email := (mem_sortDescBy OtpRow.id r _).mp h1
  unfold unconsumedFor at h2
  have h3 := List.mem_filter.mp h2
  refine ⟨h3.1, ?_, ?_⟩
  · have := h3.2
    simp only [Bool.and_eq_true, beq_iff_eq] at this
    exact this.1
  · have := h3.2
    simp only [Bool.and_eq_true, Option.isNone_iff_eq_none] at this
    exact this.2

/-! ### C3 -/

/-- C3 (amended): in production mode (the debug cache fallback is
disabled), whenever verifyOtp succeeds, the row it matches and marks
consumed was, at call time, an unconsumed and unexpired row of that
email whose stored hash matches the supplied code.  Hence a consumed
row is never matched again and an expired row never verifies. -/
theorem verifyOtp_prod_sound (H : String → String → String) (cache : Option String)
    (otps : List OtpRow) (email code : String) (now : Int) (i : Nat)
    (otps' : List OtpRow)
    (hres : verifyOtp H true cache otps email code now = (.ok i, otps')) :
    ∃ r, r ∈ otps ∧ r.id = i ∧ r.email = email ∧ r.consumed_at = none ∧
      otpExpired r now = false ∧ otpMatches H code r = true := by
  unfold verifyOtp at hres
  by_cases hrec : (otpCandidates otps email).isEmpty = true
  · rw [if_pos hrec] at hres
    simp at hres
  · rw [if_neg hrec] at hres
    cases hm : findOtpMatch H code now (otpCandidates otps email) with
    | none =>
      rw [hm] at hres
      simp at hres
    | some r =>
      rw [hm] at hres
      dsimp only at hres
      have hi : r.id = i := by
        have := congrArg Prod.fst hres
        dsimp at this
        injection this
      obtain ⟨hmem, hexp, hmat⟩ := findOtpMatch_spec H code now _ r hm
      obtain ⟨ho, he, hc⟩ := mem_otpCandidates otps email r hmem
      exact ⟨r, ho, hi, he, hc, hexp, hmat⟩

/-- Counterexample to C3 as stated: outside production, with the debug
cache holding the supplied code, verifyOtp succeeds on — and consumes —
a candidate row whose expiry (0) is in the past (now = 100), so an
expired OTP verifies. -/
theorem verifyOtp_expired_counterexample :
    otpExpired { id := 1, email := "e", code_hash := "AQ", salt := "s",
                 expires_at := some 0, created_at := 0, last_sent_at := some 0,
                 consumed_at := none } 100 = true ∧
    verifyOtp (fun _ _ => "AA") false (some "123456")
      [{ id := 1, email := "e", code_hash := "AQ", salt := "s", expires_at := some 0,
         created_at := 0, last_sent_at := some 0, consumed_at := none }]
      "e" "123456" 100
      = (.ok 1,
         [{ id := 1, email := "e", code_hash := "AQ", salt := "s", expires_at := some 0,
            created_at := 0, last_sent_at := some 0, consumed_at := some 100 }]) := by
  exact ⟨by decide, by decide⟩

/-- Witness for C3 (amended): a production-mode success on an
unexpired, unconsumed row, exhibiting the matched row. -/
theorem verifyOtp_prod_sound_witness :
    ∃ r : OtpRow,
      r ∈ [{ id := 1, email := "e", code_hash := "AA", salt := "s",
             expires_at := some 1000, created_at := 0, last_sent_at := some 0,
             consumed_at := none }] ∧ r.id = 1 ∧ r.email = "e" ∧
      r.consumed_at = none ∧ otpExpired r 10 = false ∧
      otpMatches (fun _ _ => "AA") "123456" r = true :=
  verifyOtp_prod_sound (fun _ _ => "AA") none
    [{ id := 1, email := "e", code_hash := "AA", salt := "s", expires_at := some 1000,
       created_at := 0, last_sent_at := some 0, consumed_at := none }]
    "e" "123456" 10 1
    [{ id := 1, email := "e", code_hash := "AA", salt := "s", expires_at := some 1000,
       created_at := 0, last_sent_at := some 0, consumed_at := some 10 }]
    (by decide)

/-! ### C10 -/

/-- C10: a failing verifyOtp only ever reports not_found or
invalid_code — never "expired", even when every unconsumed candidate
has expired — and it reports not_found exactly when no unconsumed row
for the email exists at all. -/
theorem verifyOtp_fail_reasons (H : String → String → String) (isProd : Bool)
    (cache : Option String) (otps : List OtpRow) (email code : String) (now : Int) :
    (∀ reason, (verifyOtp H isProd cache otps email code now).1 = .fail reason →
       reason = "not_found" ∨ reason = "invalid_code") ∧
    ((verifyOtp H isProd cache otps email code now).1 = .fail "not_found"
       ↔ unconsumedFor otps email = []) := by
  unfold verifyOtp
  by_cases hrec : (otpCandidates otps email).isEmpty = true
  · rw [if_pos hrec]
    have hnil := (otpCandidates_eq_nil otps email).mp (List.isEmpty_iff.mp hrec)
    constructor
    · intro reason h
      dsimp only at h
      left
      injection h with h2
      exact h2.symm
    · simp [hnil]
  · rw [if_neg hrec]
    have hne : unconsumedFor otps email ≠ [] := by
      intro h
      exact hrec (List.isEmpty_iff.mpr ((otpCandidates_eq_nil otps email).mpr h))
    cases hm : findOtpMatch H code now (otpCandidates otps email) with
    | none =>
      dsimp only
      cases hmm : (if !isProd then
          match cache with
          | some cachedCode => if cachedCode == code then (otpCandidates otps email).head?
            else none
          | none => none
        else none) with
      | none =>
        constructor
        · intro reason h
          dsimp only at h
          right
          injection h with h2
          exact h2.symm
        · constructor
          · intro h
            dsimp only at h
            exact absurd h (by decide)
          · intro h
            exact absurd h hne
      | some m =>
        constructor
        · intro reason h
          simp at h
        · constructor
          · intro h
            simp at h
          · intro h
            exact absurd h hne
    | some r =>
      constructor
      · intro reason h
        simp at h
      · constructor
        · intro h
          simp at h
        · intro h
          exact absurd h hne

/-- Witness for C10: no row at all for the email yields not_found. -/
theorem verifyOtp_fail_reasons_witness :
    (verifyOtp (fun _ _ => "AA") true none [] "e" "123456" 0).1 = .fail "not_found" :=
  (verifyOtp_fail_reasons (fun _ _ => "AA") true none [] "e" "123456" 0).2.mpr rfl

/-! ### Header-object lemmas for the Forwarder -/

theorem hset_pred_comp (k v : String) :
    ((fun kv : String × String => kv.1 == k) ∘ fun kv => if kv.1 == k then (k, v) else kv)
      = fun kv : String × String => kv.1 == k := by
  funext kv
  by_cases h : (kv.1 == k) = true <;> simp [Function.comp, h]

theorem hget_map_set (k v : String) (hs : List (String × String))
    (ha : (hs.any fun kv => kv.1 == k) = true) :
    hget (hs.map fun kv => if kv.1 == k then (k, v) else kv) k = some v := by
  unfold hget
  rw [List.find?_map, hset_pred_comp]
  cases hf : List.find? (fun kv => kv.1 == k) hs with
  | none =>
    rw [List.any_eq_true] at ha
    obtain ⟨x, hx, hpx⟩ := ha
    exact absurd hpx (List.find?_eq_none.mp hf x hx)
  | some w =>
    have hw := List.find?_some hf
    have hwe : w.1 = k := by simpa using hw
    simp [hwe]

theorem hget_append_single (hs : List (String × String)) (k v : String)
    (h : (hs.any fun kv => kv.1 == k) = false) :
    hget (hs ++ [(k, v)]) k = some v := by
  have hfn : hs.find? (fun kv => kv.1 == k) = none := by
    rw [List.find?_eq_none]
    intro x hx hpx
    have hat : (hs.any fun kv => kv.1 == k) = true := List.any_eq_true.mpr ⟨x, hx, hpx⟩
    rw [h] at hat
    exact Bool.false_ne_true hat
  simp [hget, List.find?_append, hfn, List.find?_cons]

theorem hget_hset_self (hs : List (String × String)) (k v : String) :
    hget (hset hs k v) k = some v := by
  unfold hset
  by_cases ha : (hs.any fun kv => kv.1 == k) = true
  · rw [if_pos ha]
    exact hget_map_set k v hs ha
  · rw [if_neg ha]
    have ha' : (hs.any fun kv => kv.1 == k) = false := by
      cases hb : hs.any fun kv => kv.1 == k
      · rfl
      · exact absurd hb ha
    exact hget_append_single hs k v ha'

theorem hset_pred_comp_ne (k v k' : String) (hne : k' ≠ k) :
    ((fun kv : String × String => kv.1 == k') ∘ fun kv => if kv.1 == k then (k, v) else kv)
      = fun kv : String × String => kv.1 == k' := by
  funext kv
  by_cases h : (kv.1 == k) = true
  · have hk : kv.1 = k := by simpa using h
    simp only [Function.comp, if_pos h]
    have h1 : (k == k') = false := beq_eq_false_iff_ne.mpr (Ne.symm hne)
    have h2 : (kv.1 == k') = false := by
      rw [hk]
      exact h1
    simp [h1, h2]
  · simp [Function.comp, h]

theorem hget_hset_ne (hs : List (String × String)) (k v k' : String) (hne : k' ≠ k) :
    hget (hset hs k v) k' = hget hs k' := by
  unfold hset
  split
  · unfold hget
    rw [List.find?_map, hset_pred_comp_ne k v k' hne]
    cases hf : List.find? (fun kv => kv.1 == k') hs with
    | none => rfl
    | some w =>
      have hw := List.find?_some hf
      have hwne : w.1 ≠ k := by
        have hwe : w.1 = k' := by simpa using hw
        rw [hwe]
        exact hne
      simp [hwne]
  · have h5 : List.find? (fun kv => kv.1 == k') [(k, v)] = none := by
      simp only [List.find?_cons, List.find?_nil]
      have h1 : (((k, v) : String × String).1 == k') = false :=
        beq_eq_false_iff_ne.mpr (Ne.symm hne)
      rw [h1]
    simp [hget, List.find?_append, h5]

theorem hget_hdel_self (hs : List (String × String)) (k : String) :
    hget (hdel hs k) k = none := by
  unfold hget hdel
  have : List.find? (fun kv => kv.1 == k) (hs.filter fun kv => kv.1 != k) = none := by
    rw [List.find?_eq_none]
    intro x hx hpx
    have h1 := (List.mem_filter.mp hx).2
    simp only [bne_iff_ne, ne_eq] at h1
    exact h1 (by simpa using hpx)
  rw [this]
  rfl

theorem find?_filter_of_imp (p q : α → Bool) (h : ∀ x, p x = true → q x = true) :
    ∀ l : List α, List.find? p (l.filter q) = List.find? p l := by
  intro l
  induction l with
  | nil => rfl
  | cons a l ih =>
    by_cases hq : q a = true
    · rw [List.filter_cons_of_pos hq]
      cases hp : p a with
      | true => simp [List.find?_cons, hp]
      | false => simp [List.find?_cons, hp, ih]
    · have hp : p a = false := by
        cases hpa : p a with
        | true => exact absurd (h a hpa) hq
        | false => rfl
      rw [List.filter_cons_of_neg hq]
      simp [List.find?_cons, hp, ih]

theorem hget_hdel_ne (hs : List (String × String)) (k k' : String) (hne : k' ≠ k) :
    hget (hdel hs k) k' = hget hs k' := by
  unfold hget hdel
  rw [find?_filter_of_imp]
  intro x hx
  have hx1 : x.1 = k' := by simpa using hx
  simp [hx1]
  exact hne

theorem mem_hset (hs : List (String × String)) (k v : String) (x : String × String)
    (hx : x ∈ hset hs k v) : x = (k, v) ∨ x ∈ hs := by
  unfold hset at hx
  split at hx
  · obtain ⟨kv, hkv, hmap⟩ := List.mem_map.mp hx
    by_cases h1 : (kv.1 == k) = true
    · rw [if_pos h1] at hmap
      exact .inl hmap.symm
    · rw [if_neg h1] at hmap
      exact .inr (hmap ▸ hkv)
  · rw [List.mem_append] at hx
    rcases hx with h | h
    · exact .inr h
    · simp at h
      exact .inl h

theorem mem_hdel (hs : List (String × String)) (k : String) (x : String × String)
    (hx : x ∈ hdel hs k) : x ∈ hs ∧ x.1 ≠ k := by
  unfold hdel at hx
  have h := List.mem_filter.mp hx
  exact ⟨h.1, by simpa using h.2⟩

/-! ### C8 -/

/-- C8 (amended): for an admitted POST/PUT/PATCH/DELETE request whose
application/json or application/x-www-form-urlencoded body was already
parsed, forwardBody takes its manual path: the parsed value is
re-serialized, the upstream content-length is the UTF-8 byte length of
the re-serialized body (the original content-length and
transfer-encoding having been stripped first), and the X-API-Key header
never reaches the upstream.  The expect header, however, is not
stripped on this path. -/
theorem forwardBody_reencode (req : FwdRequest) (v : JsVal)
    (hm : fwdMethods.contains (upperStr req.method) = true)
    (hct : fwdIsJson req = true ∨ fwdIsForm req = true)
    (hbody : req.body = some v)
    (hlower : ∀ kv ∈ req.headers, lowerStr kv.1 = kv.1) :
    forwardBodyAction req
      = .manual { method := upperStr req.method, path := req.originalUrl,
                  headers := fwdHeaders req, bodyStr := fwdBodyStr req } ∧
    fwdBodyStr req = (if fwdIsJson req then jsonStringify v else qsStringify v) ∧
    hget (fwdHeaders req) "content-length"
      = some (toString (fwdBodyStr req).utf8ByteSize) ∧
    hget (fwdHeaders req) "transfer-encoding" = none ∧
    (∀ kv ∈ fwdHeaders req, lowerStr kv.1 ≠ "x-api-key") := by
  refine ⟨?_, ?_, ?_, ?_, ?_⟩
  · unfold forwardBodyAction
    rw [if_neg (by rw [hm]; decide)]
    rw [if_neg (by rcases hct with h | h <;> rw [h] <;> simp)]
  · unfold fwdBodyStr
    rw [hbody]
  · unfold fwdHeaders
    rw [hget_hset_ne _ _ _ _ (by decide), hget_hset_self]
  · unfold fwdHeaders
    rw [hget_hset_ne _ _ _ _ (by decide), hget_hset_ne _ _ _ _ (by decide),
      hget_hset_ne _ _ _ _ (by decide), hget_hdel_self]
  · intro kv hkv
    unfold fwdHeaders at hkv
    rcases mem_hset _ _ _ _ hkv with h | h
    · rw [h]; dsimp only; decide
    rcases mem_hset _ _ _ _ h with h | h
    · rw [h]; dsimp only; decide
    rcases mem_hset _ _ _ _ h with h | h
    · rw [h]; dsimp only; decide
    have h1 := mem_hdel _ _ _ h
    have h2 := mem_hdel _ _ _ h1.1
    have h3 := mem_hdel _ _ _ h2.1
    have h4 := mem_hdel _ _ _ h3.1
    have h5 := mem_hdel _ _ _ h4.1
    rw [hlower kv h5.1]
    exact h5.2

/-- Counterexample to C8 as stated: on the manual forwarding path the
expect header of the original request is not stripped — it survives
into the computed upstream headers. -/
theorem forwardBody_expect_counterexample :
    hget (fwdHeaders
      { method := "POST",
        headers := [("content-type", "application/json"), ("expect", "100-continue"),
                    ("x-api-key", "secret"), ("content-length", "999")],
        body := some (.str "x"), remoteAddress := "1.2.3.4", originalUrl := "/u" })
      "expect" = some "100-continue" ∧
    fwdMethods.contains (upperStr "POST") = true ∧
    fwdIsJson
      { method := "POST",
        headers := [("content-type", "application/json"), ("expect", "100-continue"),
                    ("x-api-key", "secret"), ("content-length", "999")],
        body := some (.str "x"), remoteAddress := "1.2.3.4", originalUrl := "/u" } = true := by
  refine ⟨?_, by decide, by decide⟩
  unfold fwdHeaders
  rw [hget_hset_ne _ _ _ _ (by decide), hget_hset_ne _ _ _ _ (by decide),
    hget_hset_ne _ _ _ _ (by decide), hget_hdel_ne _ _ _ (by decide),
    hget_hdel_ne _ _ _ (by decide), hget_hdel_ne _ _ _ (by decide),
    hget_hdel_ne _ _ _ (by decide), hget_hdel_ne _ _ _ (by decide)]
  decide

/-- Witness for C8 (amended) at a concrete JSON request. -/
theorem forwardBody_reencode_witness :
    forwardBodyAction
      { method := "post",
        headers := [("content-type", "application/json"), ("x-api-key", "secret"),
                    ("content-length", "999"), ("transfer-encoding", "chunked")],
        body := some (.str "x"), remoteAddress := "1.2.3.4", originalUrl := "/u" }
      = .manual { method := upperStr "post", path := "/u",
                  headers := fwdHeaders
                    { method := "post",
                      headers := [("content-type", "application/json"),
                                  ("x-api-key", "secret"), ("content-length", "999"),
                                  ("transfer-encoding", "chunked")],
                      body := some (.str "x"), remoteAddress := "1.2.3.4",
                      originalUrl := "/u" },
                  bodyStr := fwdBodyStr
                    { method := "post",
                      headers := [("content-type", "application/json"),
                                  ("x-api-key", "secret"), ("content-length", "999"),
                                  ("transfer-encoding", "chunked")],
                      body := some (.str "x"), remoteAddress := "1.2.3.4",
                      originalUrl := "/u" } } :=
  (forwardBody_reencode
    { method := "post",
      headers := [("content-type", "application/json"), ("x-api-key", "secret"),
                  ("content-length", "999"), ("transfer-encoding", "chunked")],
      body := some (.str "x"), remoteAddress := "1.2.3.4", originalUrl := "/u" }
    (.str "x") (by decide) (.inl (by decide)) rfl (by decide)).1

end CrRoma
